import Mathlib

/-!
Verification of the kvstore storage/consistency engine.

Shallow embedding of the repository's code:
  - `engine.py`  (`KVEngine`): liveness predicate, SET/GET/DEL/EXISTS,
    TTL operations, RANGE, and log replay (`_load_from_log`);
  - `storage.py` (`AppendOnlyLog`): record parsing/validation and `replay`;
  - `main.py`: the transaction overlay (`BEGIN`/`SET`/`COMMIT`/`ABORT`).

Python strings are modelled as Lean `String`; wall-clock time
(`KVEngine._now_ms`) is passed explicitly as an `Int` parameter; exceptions
are modelled with `Except Unit`.  The in-memory B+-tree index is not part of
the sources; its externally observable contract (ordered last-write map with
point get/set and ascending iteration) is modelled as a key-sorted
association list.
-/

namespace KVStore

/-! ### Python-string helpers

Character-list primitives, written by structural recursion so that every
concrete instance reduces inside the kernel. -/

/-- Membership of a character in a character list (Python `c in s`). -/
def hasChar : List Char → Char → Bool
  | [], _ => false
  | a :: rest, c => if a = c then true else hasChar rest c

/-- Python `str.__lt__` on the underlying code points: lexicographic
comparison of the two character lists. -/
def ltChars : List Char → List Char → Bool
  | [], [] => false
  | [], _ :: _ => true
  | _ :: _, [] => false
  | a :: as, b :: bs => if a = b then ltChars as bs else decide (a.toNat < b.toNat)

/-- Lexicographic strict order on strings (Python `a < b`). -/
def pyStrLt (a b : String) : Bool := ltChars a.toList b.toList

/-- The whitespace class of Python's `str.strip` / regex `\s`
(ASCII fragment, the only characters that can appear here). -/
def pyIsSpace (c : Char) : Bool :=
  c = ' ' || c = '\t' || c = '\n' || c = '\r' || c = '\x0b' || c = '\x0c'

/-- `_KEY_RE = ^\S+$` of `storage.py`: a key is non-empty and contains no
whitespace. -/
def pyMatchKey (k : String) : Bool :=
  !k.toList.isEmpty && k.toList.all (fun c => !pyIsSpace c)

/-- Strip Python whitespace from both ends of a character list. -/
def pyStrip (cs : List Char) : List Char :=
  ((cs.dropWhile pyIsSpace).reverse.dropWhile pyIsSpace).reverse

/-- Digit/underscore body of a Python integer literal after the first digit:
underscores may only stand between two digits. -/
def pyDigitsTail : List Char → Bool
  | [] => true
  | '_' :: [] => false
  | '_' :: c :: rest => c.isDigit && pyDigitsTail rest
  | c :: rest => c.isDigit && pyDigitsTail rest

/-- A valid unsigned Python integer-literal body: nonempty, starts with a
digit, underscores only between digits. -/
def pyDigitsOk : List Char → Bool
  | [] => false
  | c :: rest => c.isDigit && pyDigitsTail rest

/-- Numeric value of a digit/underscore sequence. -/
def digitsVal (cs : List Char) : Nat :=
  cs.foldl (fun acc c => if c = '_' then acc else acc * 10 + (c.toNat - 48)) 0

/-- Python `int(s)` on a string: strip whitespace, optional sign, digits with
optional single underscores between them; `none` models `ValueError`. -/
def pyStrToInt (s : String) : Option Int :=
  match pyStrip s.toList with
  | '+' :: rest => if pyDigitsOk rest then some (digitsVal rest : Int) else none
  | '-' :: rest => if pyDigitsOk rest then some (-(digitsVal rest : Int)) else none
  | rest => if pyDigitsOk rest then some (digitsVal rest : Int) else none

/-! ### The ordered index

Modelled from the spec: `index.py` (`BPlusTreeIndex`) is not among the
sources; the spec prescribes only its contract — "an ordered mapping from
key to latest value, supporting point get/set and ascending iteration",
with no deletion primitive.  We realise that contract as a key-sorted
association list: `idxGet` is point lookup, `idxSet` is ordered
insert-or-replace, and the list itself is the ascending iteration. -/

/-- Point lookup in the ordered index. -/
def idxGet : List (String × String) → String → Option String
  | [], _ => none
  | (k, v) :: rest, key => if k = key then some v else idxGet rest key

/-- Ordered insert-or-replace in the ordered index. -/
def idxSet : List (String × String) → String → String → List (String × String)
  | [], key, v => [(key, v)]
  | (k, w) :: rest, key, v =>
    if key = k then (key, v) :: rest
    else if pyStrLt key k then (key, v) :: (k, w) :: rest
    else (k, w) :: idxSet rest key v

/-! ### TTL table and tombstone set (plain Python dict / set) -/

/-- `self._ttl.get(key)`. -/
def ttlGet : List (String × Int) → String → Option Int
  | [], _ => none
  | (k, e) :: rest, key => if k = key then some e else ttlGet rest key

/-- `self._ttl[key] = e` (update or insert). -/
def ttlSet : List (String × Int) → String → Int → List (String × Int)
  | [], key, e => [(key, e)]
  | (k, w) :: rest, key, e =>
    if k = key then (key, e) :: rest else (k, w) :: ttlSet rest key e

/-- `self._ttl.pop(key, None)`. -/
def ttlPop : List (String × Int) → String → List (String × Int)
  | [], _ => []
  | (k, e) :: rest, key =>
    if k = key then ttlPop rest key else (k, e) :: ttlPop rest key

/-- `key in self._tombstones`. -/
def tombMem : List String → String → Bool
  | [], _ => false
  | k :: rest, key => if k = key then true else tombMem rest key

/-- `self._tombstones.add(key)`. -/
def tombAdd (t : List String) (key : String) : List String :=
  if tombMem t key then t else key :: t

/-- `self._tombstones.discard(key)`. -/
def tombRemove : List String → String → List String
  | [], _ => []
  | k :: rest, key =>
    if k = key then tombRemove rest key else k :: tombRemove rest key

/-! ### Engine state -/

/-- The mutable state owned by `KVEngine`, together with the contents of its
append-only log (one entry per appended line, exactly the bytes written). -/
structure EngineState where
  index : List (String × String)
  tombstones : List String
  ttl : List (String × Int)
  log : List String
deriving Repr, DecidableEq

/-- The empty engine state (fresh store, empty log). -/
def emptyEngine : EngineState := ⟨[], [], [], []⟩

instance {ε α : Type} [DecidableEq ε] [DecidableEq α] : DecidableEq (Except ε α) := fun a b =>
  match a, b with
  | .ok x, .ok y =>
    if h : x = y then .isTrue (by rw [h]) else .isFalse (by intro hc; cases hc; exact h rfl)
  | .error x, .error y =>
    if h : x = y then .isTrue (by rw [h]) else .isFalse (by intro hc; cases hc; exact h rfl)
  | .ok _, .error _ => .isFalse (by intro hc; cases hc)
  | .error _, .ok _ => .isFalse (by intro hc; cases hc)

/-! ### `AppendOnlyLog` append operations

`append_set` / `append_del` / `append_expireat` / `append_persist` of
`storage.py`, with the engine's configuration (`max_key_len = None`,
`max_value_len = None`, so the length checks are skipped).  `Except.error`
models the `ValueError` raised on a bad key or multi-line value; a failed
append leaves the file untouched. -/

/-- `append_set`: validate key and value, then append `SET key value\n`. -/
def append_set (log : List String) (key value : String) : Except Unit (List String) :=
  if !pyMatchKey key then .error ()
  else if hasChar value.toList '\n' then .error ()
  else .ok (log ++ ["SET " ++ key ++ " " ++ value ++ "\n"])

/-- `append_del`: validate key, then append `DEL key\n`. -/
def append_del (log : List String) (key : String) : Except Unit (List String) :=
  if !pyMatchKey key then .error ()
  else .ok (log ++ ["DEL " ++ key ++ "\n"])

/-- `append_expireat`: validate key, then append `EXPIREAT key ms\n`. -/
def append_expireat (log : List String) (key : String) (absolute_ms : Int) :
    Except Unit (List String) :=
  if !pyMatchKey key then .error ()
  else .ok (log ++ ["EXPIREAT " ++ key ++ " " ++ toString absolute_ms ++ "\n"])

/-- `append_persist`: validate key, then append `PERSIST key\n`. -/
def append_persist (log : List String) (key : String) : Except Unit (List String) :=
  if !pyMatchKey key then .error ()
  else .ok (log ++ ["PERSIST " ++ key ++ "\n"])

/-! ### `KVEngine` operations

Every operation that consults the clock receives `now` (the value of
`KVEngine._now_ms()` during the call) explicitly.  Each returns the
post-call state together with its result; `Except.error` marks an escaping
`ValueError` (the REPL catches it and keeps the mutated engine). -/

/-- `KVEngine._is_expired`: true iff the key has a TTL that has elapsed;
in that case the TTL entry is dropped and the key is tombstoned. -/
def KVEngine.is_expired (s : EngineState) (key : String) (now : Int) :
    Bool × EngineState :=
  match ttlGet s.ttl key with
  | none => (false, s)
  | some exp =>
    if exp > now then (false, s)
    else (true, { s with ttl := ttlPop s.ttl key, tombstones := tombAdd s.tombstones key })

/-- `KVEngine._is_alive`: tombstoned → dead; absent from index → dead;
expired (with the `_is_expired` side effect) → dead; otherwise alive. -/
def KVEngine.is_alive (s : EngineState) (key : String) (now : Int) :
    Bool × EngineState :=
  if tombMem s.tombstones key then (false, s)
  else match idxGet s.index key with
    | none => (false, s)
    | some _ =>
      let (e, s) := KVEngine.is_expired s key now
      (!e, s)

/-- `KVEngine.set`: durably append a SET record, update the index,
un-tombstone the key; the TTL table is untouched. -/
def KVEngine.set (s : EngineState) (key value : String) :
    EngineState × Except Unit Unit :=
  match append_set s.log key value with
  | .error _ => (s, .error ())
  | .ok log' =>
    ({ s with log := log', index := idxSet s.index key value,
              tombstones := tombRemove s.tombstones key }, .ok ())

/-- `KVEngine.get`: the latest value if the key is live, else `none`. -/
def KVEngine.get (s : EngineState) (key : String) (now : Int) :
    EngineState × Option String :=
  let (alive, s) := KVEngine.is_alive s key now
  if alive then (s, idxGet s.index key) else (s, none)

/-- `KVEngine.delete`: if live, tombstone the key, drop its TTL and append a
DEL record; otherwise also pop any TTL for the key and report `false`. -/
def KVEngine.delete (s : EngineState) (key : String) (now : Int) :
    EngineState × Except Unit Bool :=
  let (alive, s) := KVEngine.is_alive s key now
  if !alive then
    ({ s with ttl := ttlPop s.ttl key }, .ok false)
  else
    let s := { s with tombstones := tombAdd s.tombstones key, ttl := ttlPop s.ttl key }
    match append_del s.log key with
    | .error _ => (s, .error ())
    | .ok log' => ({ s with log := log' }, .ok true)

/-- `KVEngine.exists`: the liveness check, returning only the verdict. -/
def KVEngine.existsKey (s : EngineState) (key : String) (now : Int) :
    EngineState × Bool :=
  let (alive, s) := KVEngine.is_alive s key now
  (s, alive)

/-- `KVEngine.expire`: if live, store the absolute deadline `now + ms` in
the TTL table and append an EXPIREAT record. -/
def KVEngine.expire (s : EngineState) (key : String) (ms now : Int) :
    EngineState × Except Unit Bool :=
  let (alive, s) := KVEngine.is_alive s key now
  if !alive then (s, .ok false)
  else
    let deadline := now + ms
    let s := { s with ttl := ttlSet s.ttl key deadline }
    match append_expireat s.log key deadline with
    | .error _ => (s, .error ())
    | .ok log' => ({ s with log := log' }, .ok true)

/-- `KVEngine.ttl`: remaining milliseconds, `-1` if live without TTL,
`-2` if dead (with the same lazy tombstone conversion on an elapsed TTL). -/
def KVEngine.ttl (s : EngineState) (key : String) (now : Int) :
    EngineState × Int :=
  let (alive, s) := KVEngine.is_alive s key now
  if !alive then (s, -2)
  else match ttlGet s.ttl key with
    | none => (s, -1)
    | some exp =>
      if exp ≤ now then
        ({ s with ttl := ttlPop s.ttl key, tombstones := tombAdd s.tombstones key }, -2)
      else (s, exp - now)

/-- `KVEngine.persist`: if live and a TTL exists, drop it and append a
PERSIST record. -/
def KVEngine.persist (s : EngineState) (key : String) (now : Int) :
    EngineState × Except Unit Bool :=
  let (alive, s) := KVEngine.is_alive s key now
  if !alive then (s, .ok false)
  else
    match ttlGet s.ttl key with
    | none => (s, .ok false)
    | some _ =>
      let s := { s with ttl := ttlPop s.ttl key }
      match append_persist s.log key with
      | .error _ => (s, .error ())
      | .ok log' => ({ s with log := log' }, .ok true)

/-- Loop body of `KVEngine.range_keys`: walk the index snapshot in ascending
order, skip keys with a dash and length above 16, apply the inclusive
bounds (`""` = unbounded), and keep keys the (side-effecting) liveness
check reports alive. -/
def rangeLoop (start stop : String) (now : Int) :
    EngineState → List (String × String) → EngineState × List String
  | s, [] => (s, [])
  | s, (k, _) :: rest =>
    if hasChar k.toList '-' && decide (k.length > 16) then rangeLoop start stop now s rest
    else if start ≠ "" && pyStrLt k start then rangeLoop start stop now s rest
    else if stop ≠ "" && pyStrLt stop k then rangeLoop start stop now s rest
    else
      let (alive, s) := KVEngine.is_alive s k now
      if alive then
        let (s, ks) := rangeLoop start stop now s rest
        (s, k :: ks)
      else rangeLoop start stop now s rest

/-- `KVEngine.range_keys`. -/
def KVEngine.range_keys (s : EngineState) (start stop : String) (now : Int) :
    EngineState × List String :=
  rangeLoop start stop now s s.index

/-! ### Log recovery (`KVEngine._load_from_log`) -/

/-- A decoded log record as yielded by `AppendOnlyLog.replay`:
`(op, key, arg)`. -/
abbrev Rec3 : Type := String × String × String

/-- One step of `KVEngine._load_from_log`: apply a decoded record to the
in-memory state (the log file itself is not modified during replay). -/
def applyLoadRec (s : EngineState) (r : Rec3) : EngineState :=
  let (op, key, arg) := r
  if op = "SET" then
    { s with index := idxSet s.index key arg, tombstones := tombRemove s.tombstones key }
  else if op = "DEL" then
    { s with tombstones := tombAdd s.tombstones key, ttl := ttlPop s.ttl key }
  else if op = "EXPIREAT" then
    match pyStrToInt arg with
    | none => s
    | some abs_ms => { s with ttl := ttlSet s.ttl key abs_ms }
  else if op = "PERSIST" then
    { s with ttl := ttlPop s.ttl key }
  else s

/-- `KVEngine._load_from_log`: fold the decoded records, in append order,
over the empty in-memory state. -/
def loadFromLog (recs : List Rec3) : EngineState :=
  recs.foldl applyLoadRec emptyEngine

/-- The three per-key fields reconstructed by recovery: index entry,
tombstone membership, TTL entry. -/
def viewAt (k : String) (s : EngineState) : Option String × Bool × Option Int :=
  (idxGet s.index k, tombMem s.tombstones k, ttlGet s.ttl k)

/-! ### `AppendOnlyLog.replay`

The log file is modelled as its text content.  Python's file iteration
yields one element per line, keeping the terminator; the final piece
without a terminator is yielded as well.  `replay` then strips the
trailing newline, skips empty lines, and parses/validates each line with
`_parse_and_validate` (default configuration: lenient, no length limits).
The "peek last character" step of the source only emits a warning and has
no effect on what is yielded. -/

/-- Python text-file iteration: split at each newline, keeping the
terminator; a final unterminated piece is yielded too. -/
def splitLinesAux (acc : List Char) : List Char → List String
  | [] => if acc.isEmpty then [] else [String.mk acc.reverse]
  | c :: rest =>
    if c = '\n' then String.mk (acc.reverse ++ ['\n']) :: splitLinesAux [] rest
    else splitLinesAux (c :: acc) rest

/-- `raw.rstrip("\n")`. -/
def pyRstripNl (s : String) : String :=
  String.mk (s.toList.reverse.dropWhile (fun c => c = '\n')).reverse

/-- Split a character list at its first space, if any. -/
def breakAtSpace : List Char → Option (List Char × List Char)
  | [] => none
  | c :: rest =>
    if c = ' ' then some ([], rest)
    else match breakAtSpace rest with
      | none => none
      | some (a, b) => some (c :: a, b)

/-- Python `line.split(" ", 2)`: at most two splits at single spaces, the
remainder (which may contain spaces) is kept whole. -/
def pySplitSp2 (s : String) : List String :=
  match breakAtSpace s.toList with
  | none => [s]
  | some (a, r1) =>
    match breakAtSpace r1 with
    | none => [String.mk a, String.mk r1]
    | some (b, c) => [String.mk a, String.mk b, String.mk c]

/-- `AppendOnlyLog._parse_and_validate` under the default configuration:
`some (op, key, arg)` for a well-formed record, `none` for a skipped one. -/
def parseLine (line : String) : Option Rec3 :=
  match pySplitSp2 line with
  | [] => none
  | op :: rest =>
    if op = "SET" then
      match rest with
      | [key, value] => if pyMatchKey key then some ("SET", key, value) else none
      | _ => none
    else if op = "DEL" || op = "PERSIST" then
      match rest with
      | [key] => if pyMatchKey key then some (op, key, "") else none
      | _ => none
    else if op = "EXPIREAT" then
      match rest with
      | [key, ms] =>
        if pyMatchKey key && (pyStrToInt ms).isSome then some ("EXPIREAT", key, ms) else none
      | _ => none
    else none

/-- `AppendOnlyLog.replay` on the file content: decode records in append
order, skipping blank and malformed lines. -/
def replay (content : String) : List Rec3 :=
  (splitLinesAux [] content.toList).filterMap (fun raw =>
    let line := pyRstripNl raw
    if line = "" then none else parseLine line)

/-! ### `main.py`: response strings and the transaction overlay -/

def MSG_OK : String := "OK"
def ERR_TX_NESTED : String := "ERR transaction already in progress"
def ERR_NO_TX : String := "ERR no transaction"
def ERR_VALUE_SINGLELINE : String := "ERR value must be a single line"
def ERR_INTERNAL : String := "ERR internal"

/-- An entry of `tx_ops`: an `(op_name, args)` pair of `main.py`.  The
EXPIRE entry stores its millisecond argument as the string `str(ms)`,
exactly as the source does. -/
inductive TxOp where
  | set (key value : String)
  | del (key : String)
  | expire (key ms : String)
  | persist (key : String)
deriving Repr, DecidableEq

/-- The module-level transaction state of `main.py`: the `in_tx` flag, the
read-view buffer `tx_buffer` (a `none` value is the pending-delete marker)
and the ordered op-log `tx_ops`. -/
structure TxState where
  in_tx : Bool
  buffer : List (String × Option String)
  ops : List TxOp
deriving Repr, DecidableEq

/-- `tx_buffer[key] = v` (dict update-or-insert). -/
def bufSet : List (String × Option String) → String → Option String →
    List (String × Option String)
  | [], key, v => [(key, v)]
  | (k, w) :: rest, key, v =>
    if k = key then (key, v) :: rest else (k, w) :: bufSet rest key v

/-- `key in tx_buffer` plus lookup: `some v` when buffered, `none` when
the key is not in the buffer. -/
def bufGet : List (String × Option String) → String → Option (Option String)
  | [], _ => none
  | (k, w) :: rest, key => if k = key then some w else bufGet rest key

/-- `handle_begin`: Idle→Active with fresh buffer and op-log; nested
`BEGIN` is refused. -/
def handle_begin (tx : TxState) : TxState × String :=
  if tx.in_tx then (tx, ERR_TX_NESTED) else (⟨true, [], []⟩, MSG_OK)

/-- `handle_set` (after argument splitting: `key`, joined `value`): refuse
multi-line values; while Active buffer the write and record the op;
otherwise apply `KVEngine.set` directly. -/
def handle_set (tx : TxState) (kv : EngineState) (key value : String) :
    TxState × EngineState × String :=
  if hasChar value.toList '\n' || hasChar value.toList '\r' then
    (tx, kv, ERR_VALUE_SINGLELINE)
  else if tx.in_tx then
    ({ tx with buffer := bufSet tx.buffer key (some value),
               ops := tx.ops ++ [TxOp.set key value] }, kv, MSG_OK)
  else
    match KVEngine.set kv key value with
    | (kv', .ok _) => (tx, kv', MSG_OK)
    | (kv', .error _) => (tx, kv', ERR_INTERNAL)

/-- `handle_abort`: discard buffer and op-log, back to Idle; `ABORT` while
Idle reports "no transaction".  The engine is never touched. -/
def handle_abort (tx : TxState) (kv : EngineState) : TxState × EngineState × String :=
  if !tx.in_tx then (tx, kv, ERR_NO_TX)
  else (⟨false, [], []⟩, kv, MSG_OK)

/-- The replay loop of `handle_commit`: apply each op-log entry to the
engine in issuance order via the engine's normal operation; an EXPIRE entry
whose recorded argument does not parse as an integer is skipped with
`continue`.  The source wraps the loop in no try/except, so a `ValueError`
raised by an engine operation aborts the loop at that entry: the partially
updated engine and the error are returned. -/
def commitLoop (now : Int) : List TxOp → EngineState → EngineState × Except Unit Unit
  | [], kv => (kv, .ok ())
  | op :: rest, kv =>
    match op with
    | .set k v =>
      match KVEngine.set kv k v with
      | (kv', .ok _) => commitLoop now rest kv'
      | (kv', .error _) => (kv', .error ())
    | .del k =>
      match KVEngine.delete kv k now with
      | (kv', .ok _) => commitLoop now rest kv'
      | (kv', .error _) => (kv', .error ())
    | .expire k ms =>
      match pyStrToInt ms with
      | none => commitLoop now rest kv
      | some m =>
        match KVEngine.expire kv k m now with
        | (kv', .ok _) => commitLoop now rest kv'
        | (kv', .error _) => (kv', .error ())
    | .persist k =>
      match KVEngine.persist kv k now with
      | (kv', .ok _) => commitLoop now rest kv'
      | (kv', .error _) => (kv', .error ())

/-- `handle_commit`: while Idle report "no transaction"; while Active run
the replay loop over the buffered op-log.  If every entry applies cleanly
the transaction state is reset and `OK` printed; if an entry raises, the
exception escapes to the REPL's catch-all (`ERR internal`) *before* the
resets run, so the transaction stays Active with its buffer and op-log
intact.  `now` is the clock value during the commit loop. -/
def handle_commit (tx : TxState) (kv : EngineState) (now : Int) :
    TxState × EngineState × String :=
  if !tx.in_tx then (tx, kv, ERR_NO_TX)
  else
    match commitLoop now tx.ops kv with
    | (kv', .ok _) => (⟨false, [], []⟩, kv', MSG_OK)
    | (kv', .error _) => (tx, kv', ERR_INTERNAL)

/-- Modelled from the spec: "`commit()`: Active→Idle; replays every
buffered op-log entry against the Liveness Engine, in original issuance
order, using the Liveness Engine's normal (now immediately durable)
operations".  Written as a direct recursion over the op-log, applying the
engine's own `set`/`delete`/`expire`/`persist` one entry at a time (the
EXPIRE argument, recorded as text, is read back as the integer it came
from). -/
def replayOpsSpec (ops : List TxOp) (kv : EngineState) (now : Int) : EngineState :=
  match ops with
  | [] => kv
  | TxOp.set k v :: rest => replayOpsSpec rest (KVEngine.set kv k v).1 now
  | TxOp.del k :: rest => replayOpsSpec rest (KVEngine.delete kv k now).1 now
  | TxOp.expire k ms :: rest =>
    replayOpsSpec rest
      (match pyStrToInt ms with
       | none => kv
       | some m => (KVEngine.expire kv k m now).1) now
  | TxOp.persist k :: rest => replayOpsSpec rest (KVEngine.persist kv k now).1 now

/-! ### The synthetic-identifier pattern (`KVEngine._UUID_RE`) -/

/-- A lowercase hexadecimal digit (`[0-9a-f]`). -/
def isHexLower (c : Char) : Bool :=
  (48 ≤ c.toNat && c.toNat ≤ 57) || (97 ≤ c.toNat && c.toNat ≤ 102)

/-- Split a character list at every dash, keeping empty pieces. -/
def splitDashAux (acc : List Char) : List Char → List (List Char)
  | [] => [acc.reverse]
  | c :: rest =>
    if c = '-' then acc.reverse :: splitDashAux [] rest
    else splitDashAux (c :: acc) rest

/-- `KVEngine._UUID_RE`: five dash-separated lowercase-hex groups of widths
8-4-4-4-12. -/
def matchesUUIDRe (s : String) : Bool :=
  match splitDashAux [] s.toList with
  | [a, b, c, d, e] =>
    a.length == 8 && b.length == 4 && c.length == 4 && d.length == 4 &&
    e.length == 12 && (a ++ b ++ c ++ d ++ e).all isHexLower
  | _ => false

/-! ### Engine invariant and reachability -/

/-- The tombstone/TTL/index coupling: no key is both tombstoned and in the
TTL table, and every key in the TTL table has an index entry. -/
def EngineInv (s : EngineState) : Prop :=
  (∀ k, tombMem s.tombstones k = true → ttlGet s.ttl k = none) ∧
  (∀ k e, ttlGet s.ttl k = some e → (idxGet s.index k).isSome = true)

/-- Every key held by the index passed `append_set`'s key validation. -/
def IdxKeysValid (s : EngineState) : Prop :=
  ∀ k, (idxGet s.index k).isSome = true → pyMatchKey k = true

/-- Engine states reachable from the empty initial state by the public
operations (each call with an arbitrary clock value).  Post-states of calls
that raise are included, as the REPL keeps the engine after catching an
exception. -/
inductive Reachable : EngineState → Prop where
  | init : Reachable emptyEngine
  | set (key value : String) {s} : Reachable s → Reachable (KVEngine.set s key value).1
  | get (key : String) (now : Int) {s} : Reachable s → Reachable (KVEngine.get s key now).1
  | delete (key : String) (now : Int) {s} :
      Reachable s → Reachable (KVEngine.delete s key now).1
  | existsKey (key : String) (now : Int) {s} :
      Reachable s → Reachable (KVEngine.existsKey s key now).1
  | expire (key : String) (ms now : Int) {s} :
      Reachable s → Reachable (KVEngine.expire s key ms now).1
  | ttl (key : String) (now : Int) {s} :
      Reachable s → Reachable (KVEngine.ttl s key now).1
  | persist (key : String) (now : Int) {s} :
      Reachable s → Reachable (KVEngine.persist s key now).1
  | range (start stop : String) (now : Int) {s} :
      Reachable s → Reachable (KVEngine.range_keys s start stop now).1

/-! ### Order lemmas for the lexicographic comparison -/

theorem char_toNat_inj {a b : Char} (h : a.toNat = b.toNat) : a = b :=
  Char.ext (UInt32.ext h)

theorem ltChars_asymm : ∀ a b, ltChars a b = true → ltChars b a = false := by
  intro a
  induction a with
  | nil => intro b h; cases b <;> simp [ltChars] at *
  | cons x xs ih =>
    intro b h
    cases b with
    | nil => simp [ltChars] at h
    | cons y ys =>
      by_cases hxy : x = y
      · subst hxy
        simp [ltChars] at h ⊢
        exact ih ys h
      · simp [ltChars, hxy, Ne.symm hxy] at h ⊢
        omega

theorem ltChars_conn : ∀ a b, ltChars a b = false → ltChars b a = false → a = b := by
  intro a
  induction a with
  | nil => intro b h1 h2; cases b <;> simp [ltChars] at *
  | cons x xs ih =>
    intro b h1 h2
    cases b with
    | nil => simp [ltChars] at h2
    | cons y ys =>
      by_cases hxy : x = y
      · subst hxy
        simp [ltChars] at h1 h2
        rw [ih ys h1 h2]
      · simp [ltChars, hxy, Ne.symm hxy] at h1 h2
        exact absurd (char_toNat_inj (by omega)) hxy

theorem ltChars_trans :
    ∀ a b c, ltChars a b = true → ltChars b c = true → ltChars a c = true := by
  intro a
  induction a with
  | nil =>
    intro b c h1 h2
    cases b with
    | nil => simp [ltChars] at h1
    | cons y ys =>
      cases c with
      | nil => simp [ltChars] at h2
      | cons z zs => simp [ltChars]
  | cons x xs ih =>
    intro b c h1 h2
    cases b with
    | nil => simp [ltChars] at h1
    | cons y ys =>
      cases c with
      | nil => simp [ltChars] at h2
      | cons z zs =>
        by_cases hxy : x = y <;> by_cases hyz : y = z
        · subst hxy; subst hyz
          simp [ltChars] at h1 h2 ⊢
          exact ih ys zs h1 h2
        · subst hxy
          simp [ltChars, hyz] at h2 ⊢
          exact h2
        · subst hyz
          simp [ltChars, hxy] at h1 ⊢
          exact h1
        · by_cases hxz : x = z
          · subst hxz
            simp [ltChars, hxy, hyz, Ne.symm hxy] at h1 h2 ⊢
            omega
          · simp [ltChars, hxy, hyz, hxz] at h1 h2 ⊢
            omega

theorem pyStrLt_asymm {a b : String} (h : pyStrLt a b = true) : pyStrLt b a = false :=
  ltChars_asymm _ _ h

theorem pyStrLt_conn {a b : String} (h1 : pyStrLt a b = false)
    (h2 : pyStrLt b a = false) : a = b := by
  have := ltChars_conn a.toList b.toList h1 h2
  cases a; cases b
  simpa [String.toList] using congrArg String.mk this

theorem pyStrLt_trans {a b c : String} (h1 : pyStrLt a b = true)
    (h2 : pyStrLt b c = true) : pyStrLt a c = true :=
  ltChars_trans _ _ _ h1 h2

theorem pyStrLt_irrefl (a : String) : pyStrLt a a = false := by
  unfold pyStrLt
  cases h : ltChars a.toList a.toList
  · rfl
  · have h2 := ltChars_asymm _ _ h
    rw [h] at h2
    exact h2

/-! ### Association-list lemmas -/

theorem ttlGet_ttlSet_self (t : List (String × Int)) (k : String) (e : Int) :
    ttlGet (ttlSet t k e) k = some e := by
  induction t with
  | nil => simp [ttlSet, ttlGet]
  | cons p rest ih =>
    by_cases h : p.1 = k
    · simp [ttlSet, ttlGet, h]
    · cases p
      simp_all [ttlSet, ttlGet, h]

theorem ttlGet_ttlSet_ne (t : List (String × Int)) (k k' : String) (e : Int)
    (h : k' ≠ k) : ttlGet (ttlSet t k e) k' = ttlGet t k' := by
  induction t with
  | nil => simp [ttlSet, ttlGet, Ne.symm h]
  | cons p rest ih =>
    cases p with
    | mk pk pe =>
      by_cases hp : pk = k
      · subst hp
        simp [ttlSet, ttlGet, Ne.symm h]
      · simp [ttlSet, ttlGet, hp]
        split <;> simp_all

theorem ttlGet_ttlPop_self (t : List (String × Int)) (k : String) :
    ttlGet (ttlPop t k) k = none := by
  induction t with
  | nil => simp [ttlPop, ttlGet]
  | cons p rest ih =>
    cases p with
    | mk pk pe =>
      by_cases hp : pk = k
      · simp [ttlPop, hp, ih]
      · simp [ttlPop, ttlGet, hp, ih]

theorem ttlGet_ttlPop_ne (t : List (String × Int)) (k k' : String) (h : k' ≠ k) :
    ttlGet (ttlPop t k) k' = ttlGet t k' := by
  induction t with
  | nil => simp [ttlPop]
  | cons p rest ih =>
    cases p with
    | mk pk pe =>
      by_cases hp : pk = k
      · subst hp
        simp [ttlPop, ttlGet, Ne.symm h, ih]
      · by_cases hk : pk = k'
        · simp [ttlPop, ttlGet, hp, hk, h]
        · simp [ttlPop, ttlGet, hp, hk, ih]

theorem ttlPop_of_get_none (t : List (String × Int)) (k : String)
    (h : ttlGet t k = none) : ttlPop t k = t := by
  induction t with
  | nil => simp [ttlPop]
  | cons p rest ih =>
    cases p with
    | mk pk pe =>
      by_cases hp : pk = k
      · simp [ttlGet, hp] at h
      · simp [ttlGet, hp] at h
        simp [ttlPop, hp, ih h]

theorem tombMem_tombAdd_self (t : List String) (k : String) :
    tombMem (tombAdd t k) k = true := by
  unfold tombAdd
  cases h : tombMem t k
  · simp [tombMem]
  · simp [h]

theorem tombMem_tombAdd_ne (t : List String) (k k' : String) (h : k' ≠ k) :
    tombMem (tombAdd t k) k' = tombMem t k' := by
  unfold tombAdd
  cases hm : tombMem t k
  · simp [tombMem, Ne.symm h]
  · simp

theorem tombMem_tombRemove_self (t : List String) (k : String) :
    tombMem (tombRemove t k) k = false := by
  induction t with
  | nil => simp [tombRemove, tombMem]
  | cons p rest ih =>
    by_cases hp : p = k
    · simp [tombRemove, hp, ih]
    · simp [tombRemove, tombMem, hp, ih]

theorem tombMem_tombRemove_ne (t : List String) (k k' : String) (h : k' ≠ k) :
    tombMem (tombRemove t k) k' = tombMem t k' := by
  induction t with
  | nil => simp [tombRemove]
  | cons p rest ih =>
    by_cases hp : p = k
    · subst hp
      simp [tombRemove, tombMem, Ne.symm h, ih]
    · by_cases hk : p = k'
      · simp [tombRemove, tombMem, hp, hk, h]
      · simp [tombRemove, tombMem, hp, hk, ih]

theorem idxGet_idxSet_self (t : List (String × String)) (k v : String) :
    idxGet (idxSet t k v) k = some v := by
  induction t with
  | nil => simp [idxSet, idxGet]
  | cons p rest ih =>
    cases p with
    | mk pk pv =>
      by_cases hp : k = pk
      · simp [idxSet, idxGet, hp]
      · simp only [idxSet, if_neg hp]
        split
        · simp [idxGet]
        · simp [idxGet, Ne.symm hp, ih]

theorem idxGet_idxSet_ne (t : List (String × String)) (k k' v : String)
    (h : k' ≠ k) : idxGet (idxSet t k v) k' = idxGet t k' := by
  induction t with
  | nil => simp [idxSet, idxGet, Ne.symm h]
  | cons p rest ih =>
    cases p with
    | mk pk pv =>
      by_cases hp : k = pk
      · subst hp
        simp [idxSet, idxGet, Ne.symm h]
      · simp only [idxSet, if_neg hp]
        split
        · simp [idxGet, Ne.symm h]
        · simp only [idxGet]
          split <;> simp_all

/-! ### Characterizing the liveness check -/

/-- The key has a TTL entry that is at or before `now`. -/
def expiredNow (s : EngineState) (k : String) (now : Int) : Bool :=
  match ttlGet s.ttl k with
  | none => false
  | some e => decide (e ≤ now)

/-- The pure content of the liveness predicate: not tombstoned, present in
the index, and any TTL entry strictly in the future. -/
def alivePure (s : EngineState) (k : String) (now : Int) : Bool :=
  !tombMem s.tombstones k && (idxGet s.index k).isSome &&
    (match ttlGet s.ttl k with
     | none => true
     | some e => decide (now < e))

theorem is_alive_fst (s : EngineState) (k : String) (now : Int) :
    (KVEngine.is_alive s k now).1 = alivePure s k now := by
  unfold KVEngine.is_alive KVEngine.is_expired alivePure
  cases htm : tombMem s.tombstones k
  · cases hidx : idxGet s.index k
    · simp [hidx]
    · cases httl : ttlGet s.ttl k
      · simp [hidx, httl]
      · rename_i e
        by_cases he : e > now
        · have h1 : decide (now < e) = true := decide_eq_true (by omega)
          simp [hidx, httl, if_pos he, h1]
        · have h1 : decide (now < e) = false := decide_eq_false (by omega)
          simp [hidx, httl, if_neg he, h1]
  · simp

theorem is_alive_snd (s : EngineState) (k : String) (now : Int) :
    (KVEngine.is_alive s k now).2 =
      if !tombMem s.tombstones k && (idxGet s.index k).isSome && expiredNow s k now then
        { s with ttl := ttlPop s.ttl k, tombstones := tombAdd s.tombstones k }
      else s := by
  unfold KVEngine.is_alive KVEngine.is_expired expiredNow
  cases htm : tombMem s.tombstones k
  · cases hidx : idxGet s.index k
    · simp [hidx]
    · cases httl : ttlGet s.ttl k
      · simp [hidx, httl]
      · rename_i e
        by_cases he : e > now
        · have h1 : decide (e ≤ now) = false := decide_eq_false (by omega)
          simp [hidx, httl, if_pos he, h1]
        · have h1 : decide (e ≤ now) = true := decide_eq_true (by omega)
          simp [hidx, httl, if_neg he, h1]
  · simp

/-- When the key is reported alive the check has no side effect. -/
theorem is_alive_snd_of_true (s : EngineState) (k : String) (now : Int)
    (h : (KVEngine.is_alive s k now).1 = true) :
    (KVEngine.is_alive s k now).2 = s := by
  rw [is_alive_fst] at h
  rw [is_alive_snd]
  unfold alivePure at h
  cases httl : ttlGet s.ttl k
  · unfold expiredNow
    rw [httl]
    simp
  · rename_i e
    rw [httl] at h
    simp at h
    rcases h with ⟨-, hlt⟩
    unfold expiredNow
    rw [httl]
    have h1 : decide (e ≤ now) = false := decide_eq_false (by omega)
    simp [h1]

/-- The liveness check never touches the index or the log. -/
theorem is_alive_snd_index_log (s : EngineState) (k : String) (now : Int) :
    (KVEngine.is_alive s k now).2.index = s.index ∧
      (KVEngine.is_alive s k now).2.log = s.log := by
  rw [is_alive_snd]
  split <;> simp

/-- The liveness check for `k` leaves every other key's view unchanged. -/
theorem is_alive_snd_frame (s : EngineState) (k k' : String) (now : Int)
    (h : k' ≠ k) :
    viewAt k' (KVEngine.is_alive s k now).2 = viewAt k' s := by
  rw [is_alive_snd]
  split
  · simp [viewAt, ttlGet_ttlPop_ne _ _ _ h, tombMem_tombAdd_ne _ _ _ h]
  · rfl

/-- The liveness verdict is a function of the key's view. -/
theorem alivePure_of_viewAt (s s' : EngineState) (k : String) (now : Int)
    (h : viewAt k s = viewAt k s') : alivePure s k now = alivePure s' k now := by
  unfold viewAt at h
  unfold alivePure
  rw [show idxGet s.index k = idxGet s'.index k from congrArg Prod.fst h,
      show tombMem s.tombstones k = tombMem s'.tombstones k from
        congrArg (fun p => p.2.1) h,
      show ttlGet s.ttl k = ttlGet s'.ttl k from congrArg (fun p => p.2.2) h]

/-- C1 state for the liveness check. -/
theorem claim_C1_liveness (s : EngineState) (k : String) (now : Int) :
    ((KVEngine.is_alive s k now).1 = true ↔
      (tombMem s.tombstones k = false ∧ (idxGet s.index k).isSome = true ∧
        ∀ e, ttlGet s.ttl k = some e → now < e)) ∧
    (∀ e, ttlGet s.ttl k = some e → e ≤ now → tombMem s.tombstones k = false →
      (idxGet s.index k).isSome = true →
      (KVEngine.is_alive s k now).1 = false ∧
      ttlGet (KVEngine.is_alive s k now).2.ttl k = none ∧
      tombMem (KVEngine.is_alive s k now).2.tombstones k = true) := by
  constructor
  · rw [is_alive_fst]
    unfold alivePure
    cases htm : tombMem s.tombstones k
    · cases httl : ttlGet s.ttl k
      · simp
      · simp
    · simp
  · intro e he hle htm hidx
    have hexp : expiredNow s k now = true := by
      unfold expiredNow
      rw [he]
      exact decide_eq_true hle
    have hcond : (!tombMem s.tombstones k && (idxGet s.index k).isSome &&
        expiredNow s k now) = true := by
      rw [htm, hidx, hexp]
      rfl
    refine ⟨?_, ?_, ?_⟩
    · rw [is_alive_fst]
      unfold alivePure
      rw [htm, he]
      have h1 : decide (now < e) = false := decide_eq_false (by omega)
      simp [h1]
    · rw [is_alive_snd, if_pos hcond]
      exact ttlGet_ttlPop_self s.ttl k
    · rw [is_alive_snd, if_pos hcond]
      exact tombMem_tombAdd_self s.tombstones k

/-- C1 witness: a key with index entry and an elapsed TTL at time 10. -/
theorem claim_C1_liveness_witness :
    (KVEngine.is_alive ⟨[("a", "v")], [], [("a", 5)], []⟩ "a" 10).1 = false ∧
    ttlGet (KVEngine.is_alive ⟨[("a", "v")], [], [("a", 5)], []⟩ "a" 10).2.ttl "a"
      = none ∧
    tombMem
      (KVEngine.is_alive ⟨[("a", "v")], [], [("a", 5)], []⟩ "a" 10).2.tombstones "a"
      = true :=
  (claim_C1_liveness ⟨[("a", "v")], [], [("a", 5)], []⟩ "a" 10).2 5 (by decide)
    (by decide) (by decide) (by decide)

/-- If the pair returned by the liveness check reports alive, the pair is
`(true, s)`. -/
theorem is_alive_eq_of_true (s : EngineState) (k : String) (now : Int)
    (h : (KVEngine.is_alive s k now).1 = true) :
    KVEngine.is_alive s k now = (true, s) := by
  have h2 := is_alive_snd_of_true s k now h
  cases hp : KVEngine.is_alive s k now with
  | mk a b =>
    rw [hp] at h h2
    simp at h h2
    rw [h, h2]

/-- An alive key's TTL entry, if any, lies strictly in the future. -/
theorem alivePure_ttl_lt (s : EngineState) (k : String) (now e : Int)
    (h : alivePure s k now = true) (he : ttlGet s.ttl k = some e) : now < e := by
  unfold alivePure at h
  rw [he] at h
  simp at h
  exact h.2

/-- C7: `set` never touches the TTL table and un-tombstones the key; the
SET/SET/DEL/SET scenario ends live with value "3" and no TTL. -/
theorem claim_C7_set_preserves_ttl :
    (∀ (s : EngineState) (k v : String), pyMatchKey k = true →
      hasChar v.toList '\n' = false →
      (KVEngine.set s k v).1.ttl = s.ttl ∧
      tombMem (KVEngine.set s k v).1.tombstones k = false ∧
      idxGet (KVEngine.set s k v).1.index k = some v) ∧
    ((KVEngine.get
        (KVEngine.set
          (KVEngine.delete
            (KVEngine.set (KVEngine.set emptyEngine "a" "1").1 "a" "2").1
            "a" 0).1
          "a" "3").1
        "a" 0).2 = some "3" ∧
      ttlGet
        (KVEngine.set
          (KVEngine.delete
            (KVEngine.set (KVEngine.set emptyEngine "a" "1").1 "a" "2").1
            "a" 0).1
          "a" "3").1.ttl "a" = none) := by
  constructor
  · intro s k v hk hv
    unfold KVEngine.set append_set
    rw [hk, hv]
    simp [tombMem_tombRemove_self, idxGet_idxSet_self]
  · constructor
    · decide
    · decide

/-- C7 witness: a concrete `set` on the empty store. -/
theorem claim_C7_set_preserves_ttl_witness :
    (KVEngine.set emptyEngine "a" "x").1.ttl = emptyEngine.ttl ∧
    tombMem (KVEngine.set emptyEngine "a" "x").1.tombstones "a" = false ∧
    idxGet (KVEngine.set emptyEngine "a" "x").1.index "a" = some "x" :=
  claim_C7_set_preserves_ttl.1 emptyEngine "a" "x" (by decide) (by decide)

/-- C8: `ttl` returns the strictly positive remainder for a live key with a
TTL, `-1` for a live key without one, `-2` for a dead key; after
`set a 1; expire a (-5)` the key reads as absent and `ttl` answers `-2`. -/
theorem claim_C8_ttl_sentinels (s : EngineState) (k : String) (now : Int) :
    ((KVEngine.is_alive s k now).1 = true →
      (∀ e, ttlGet s.ttl k = some e →
        (KVEngine.ttl s k now).2 = e - now ∧ 0 < (KVEngine.ttl s k now).2) ∧
      (ttlGet s.ttl k = none → (KVEngine.ttl s k now).2 = -1)) ∧
    ((KVEngine.is_alive s k now).1 = false → (KVEngine.ttl s k now).2 = -2) ∧
    ((KVEngine.expire (KVEngine.set emptyEngine "a" "1").1 "a" (-5) 100).2
        = .ok true ∧
      (KVEngine.get
        (KVEngine.expire (KVEngine.set emptyEngine "a" "1").1 "a" (-5) 100).1
        "a" 100).2 = none ∧
      (KVEngine.ttl
        (KVEngine.get
          (KVEngine.expire (KVEngine.set emptyEngine "a" "1").1 "a" (-5) 100).1
          "a" 100).1
        "a" 100).2 = -2) := by
  refine ⟨?_, ?_, by decide, by decide, by decide⟩
  · intro halive
    have hp := is_alive_eq_of_true s k now halive
    have hap : alivePure s k now = true := by
      rw [is_alive_fst] at halive
      exact halive
    constructor
    · intro e he
      have hlt := alivePure_ttl_lt s k now e hap he
      have hne : ¬ e ≤ now := by omega
      unfold KVEngine.ttl
      rw [hp]
      constructor
      · simp [he, hne]
      · simp [he, hne]
        omega
    · intro he
      unfold KVEngine.ttl
      rw [hp]
      simp [he]
  · intro hdead
    cases hp : KVEngine.is_alive s k now with
    | mk a b =>
      rw [hp] at hdead
      simp at hdead
      subst hdead
      unfold KVEngine.ttl
      rw [hp]
      simp

/-- C8 witness: a live key with TTL 50 at time 20, and a dead key. -/
theorem claim_C8_ttl_sentinels_witness :
    (KVEngine.ttl ⟨[("a", "v")], [], [("a", 50)], []⟩ "a" 20).2 = 50 - 20 ∧
    (KVEngine.ttl ⟨[("a", "v")], [], [], []⟩ "a" 20).2 = -1 ∧
    (KVEngine.ttl emptyEngine "b" 0).2 = -2 :=
  ⟨((claim_C8_ttl_sentinels ⟨[("a", "v")], [], [("a", 50)], []⟩ "a" 20).1
      (by decide)).1 50 (by decide) |>.1,
   ((claim_C8_ttl_sentinels ⟨[("a", "v")], [], [], []⟩ "a" 20).1
      (by decide)).2 (by decide),
   (claim_C8_ttl_sentinels emptyEngine "b" 0).2.1 (by decide)⟩

/-! ### Recovery: per-record effects and per-key locality -/

theorem viewAt_load_set (s : EngineState) (k v : String) :
    viewAt k (applyLoadRec s ("SET", k, v)) = (some v, false, ttlGet s.ttl k) := by
  unfold applyLoadRec viewAt
  simp [idxGet_idxSet_self, tombMem_tombRemove_self]

theorem viewAt_load_del (s : EngineState) (k arg : String) :
    viewAt k (applyLoadRec s ("DEL", k, arg)) = (idxGet s.index k, true, none) := by
  unfold applyLoadRec viewAt
  simp [tombMem_tombAdd_self, ttlGet_ttlPop_self]

theorem viewAt_load_expireat (s : EngineState) (k arg : String) :
    viewAt k (applyLoadRec s ("EXPIREAT", k, arg)) =
      match pyStrToInt arg with
      | none => viewAt k s
      | some n => (idxGet s.index k, tombMem s.tombstones k, some n) := by
  unfold applyLoadRec viewAt
  cases hpi : pyStrToInt arg
  · simp [hpi]
  · simp [hpi, ttlGet_ttlSet_self]

theorem viewAt_load_persist (s : EngineState) (k arg : String) :
    viewAt k (applyLoadRec s ("PERSIST", k, arg)) =
      (idxGet s.index k, tombMem s.tombstones k, none) := by
  unfold applyLoadRec viewAt
  simp [ttlGet_ttlPop_self]

/-- A replayed record for another key leaves this key's view unchanged. -/
theorem viewAt_applyLoadRec_ne (s : EngineState) (r : Rec3) (k : String)
    (h : ¬ r.2.1 = k) : viewAt k (applyLoadRec s r) = viewAt k s := by
  obtain ⟨op, key, arg⟩ := r
  simp at h
  unfold applyLoadRec viewAt
  by_cases h1 : op = "SET"
  · simp [h1, idxGet_idxSet_ne _ _ _ _ (Ne.symm h),
      tombMem_tombRemove_ne _ _ _ (Ne.symm h)]
  · by_cases h2 : op = "DEL"
    · simp [h1, h2, tombMem_tombAdd_ne _ _ _ (Ne.symm h),
        ttlGet_ttlPop_ne _ _ _ (Ne.symm h)]
    · by_cases h3 : op = "EXPIREAT"
      · cases hpi : pyStrToInt arg
        · simp [h1, h2, h3, hpi]
        · simp [h1, h2, h3, hpi, ttlGet_ttlSet_ne _ _ _ _ (Ne.symm h)]
      · by_cases h4 : op = "PERSIST"
        · simp [h1, h2, h3, h4, ttlGet_ttlPop_ne _ _ _ (Ne.symm h)]
        · simp [h1, h2, h3, h4]

/-- The effect of a replayed record on a key's view is a function of that
view alone. -/
theorem viewAt_applyLoadRec_congr (s₁ s₂ : EngineState) (r : Rec3) (k : String)
    (h : viewAt k s₁ = viewAt k s₂) :
    viewAt k (applyLoadRec s₁ r) = viewAt k (applyLoadRec s₂ r) := by
  obtain ⟨op, key, arg⟩ := r
  have hidx : idxGet s₁.index k = idxGet s₂.index k := congrArg Prod.fst h
  have htmb : tombMem s₁.tombstones k = tombMem s₂.tombstones k :=
    congrArg (fun p => p.2.1) h
  have httl : ttlGet s₁.ttl k = ttlGet s₂.ttl k := congrArg (fun p => p.2.2) h
  by_cases hk : key = k
  · subst hk
    by_cases h1 : op = "SET"
    · rw [h1, viewAt_load_set, viewAt_load_set, httl]
    · by_cases h2 : op = "DEL"
      · rw [h2, viewAt_load_del, viewAt_load_del, hidx]
      · by_cases h3 : op = "EXPIREAT"
        · rw [h3, viewAt_load_expireat, viewAt_load_expireat]
          cases hpi : pyStrToInt arg
          · exact h
          · rw [hidx, htmb]
        · by_cases h4 : op = "PERSIST"
          · rw [h4, viewAt_load_persist, viewAt_load_persist, hidx, htmb]
          · unfold applyLoadRec
            simp [h1, h2, h3, h4]
            exact h
  · rw [viewAt_applyLoadRec_ne _ _ _ (by simpa using hk),
      viewAt_applyLoadRec_ne _ _ _ (by simpa using hk)]
    exact h

/-- Folding a record list affects a key's view exactly as folding the
records for that key alone, from any two states agreeing on the view. -/
theorem viewAt_foldl_filter (recs : List Rec3) (k : String) (s₁ s₂ : EngineState)
    (h : viewAt k s₁ = viewAt k s₂) :
    viewAt k (recs.foldl applyLoadRec s₁) =
      viewAt k ((recs.filter (fun r => r.2.1 = k)).foldl applyLoadRec s₂) := by
  induction recs generalizing s₁ s₂ with
  | nil => simpa using h
  | cons r rest ih =>
    by_cases hk : r.2.1 = k
    · rw [List.foldl_cons, List.filter_cons_of_pos (by simpa using hk),
        List.foldl_cons]
      exact ih _ _ (viewAt_applyLoadRec_congr _ _ _ _ h)
    · rw [List.foldl_cons, List.filter_cons_of_neg (by simpa using hk)]
      exact ih _ _ ((viewAt_applyLoadRec_ne _ _ _ hk).trans h)

/-- C2: recovery applies SET (index + un-tombstone, TTL untouched), DEL
(tombstone + clear TTL), EXPIREAT (set TTL, skipping a malformed integer
argument), PERSIST (clear TTL); the recovered view of each key depends only
on that key's records, in order. -/
theorem claim_C2_recovery (recs : List Rec3) (s : EngineState) (k v arg : String) :
    viewAt k (applyLoadRec s ("SET", k, v)) = (some v, false, ttlGet s.ttl k) ∧
    viewAt k (applyLoadRec s ("DEL", k, arg)) = (idxGet s.index k, true, none) ∧
    viewAt k (applyLoadRec s ("EXPIREAT", k, arg)) =
      (match pyStrToInt arg with
       | none => viewAt k s
       | some n => (idxGet s.index k, tombMem s.tombstones k, some n)) ∧
    viewAt k (applyLoadRec s ("PERSIST", k, arg)) =
      (idxGet s.index k, tombMem s.tombstones k, none) ∧
    viewAt k (loadFromLog recs) =
      viewAt k (loadFromLog (recs.filter (fun r => r.2.1 = k))) :=
  ⟨viewAt_load_set s k v, viewAt_load_del s k arg, viewAt_load_expireat s k arg,
   viewAt_load_persist s k arg, viewAt_foldl_filter recs k _ _ rfl⟩

/-! ### Transaction overlay: commit and abort -/

/-- When no replayed entry raises, the commit loop computes exactly the
spec's entry-by-entry replay. -/
theorem commitLoop_ok_eq (now : Int) :
    ∀ (ops : List TxOp) (kv : EngineState),
      (commitLoop now ops kv).2 = .ok () →
      (commitLoop now ops kv).1 = replayOpsSpec ops kv now := by
  intro ops
  induction ops with
  | nil =>
    intro kv _
    rfl
  | cons op rest ih =>
    intro kv h
    cases op with
    | set k v =>
      cases hs : KVEngine.set kv k v with
      | mk kv' r =>
        cases r with
        | ok u =>
          simp only [commitLoop, hs] at h ⊢
          simp only [replayOpsSpec, hs]
          exact ih kv' h
        | error e =>
          simp only [commitLoop, hs] at h
          simp at h
    | del k =>
      cases hs : KVEngine.delete kv k now with
      | mk kv' r =>
        cases r with
        | ok u =>
          simp only [commitLoop, hs] at h ⊢
          simp only [replayOpsSpec, hs]
          exact ih kv' h
        | error e =>
          simp only [commitLoop, hs] at h
          simp at h
    | expire k ms =>
      cases hm : pyStrToInt ms with
      | none =>
        simp only [commitLoop, hm] at h ⊢
        simp only [replayOpsSpec, hm]
        exact ih kv h
      | some m =>
        cases hs : KVEngine.expire kv k m now with
        | mk kv' r =>
          cases r with
          | ok u =>
            simp only [commitLoop, hm, hs] at h ⊢
            simp only [replayOpsSpec, hm, hs]
            exact ih kv' h
          | error e =>
            simp only [commitLoop, hm, hs] at h
            simp at h
    | persist k =>
      cases hs : KVEngine.persist kv k now with
      | mk kv' r =>
        cases r with
        | ok u =>
          simp only [commitLoop, hs] at h ⊢
          simp only [replayOpsSpec, hs]
          exact ih kv' h
        | error e =>
          simp only [commitLoop, hs] at h
          simp at h

/-- C4 counterexample: a transaction may buffer a SET whose key contains
whitespace (the buffered branch of `handle_set` performs no key
validation, and `shlex` admits quoted keys with spaces).  Committing
`SET "a b" "1"` raises inside the replay loop: the outcome is
`ERR internal`, the engine is untouched, and the transaction stays Active
with its buffer and op-log intact — not the claimed OK / full replay /
reset to Idle. -/
theorem claim_C4_commit_counterexample :
    handle_commit ⟨true, [("a b", some "1")], [TxOp.set "a b" "1"]⟩
        emptyEngine 0 =
      (⟨true, [("a b", some "1")], [TxOp.set "a b" "1"]⟩, emptyEngine,
        ERR_INTERNAL) ∧
    ERR_INTERNAL ≠ MSG_OK := by
  constructor
  · decide
  · decide

/-- C4 amended: while Active, `commit` replays the op-log against the
engine in issuance order via the engine's normal operations, but only up to
the first entry that raises.  If no entry raises, it resets the transaction
state and reports OK; if one raises, the loop stops there, the error is
reported (`ERR internal`), and the transaction remains Active with buffer
and op-log intact.  While Idle it reports "no transaction" and changes
nothing. -/
theorem claim_C4_commit (tx : TxState) (kv : EngineState) (now : Int) :
    (tx.in_tx = true → (commitLoop now tx.ops kv).2 = .ok () →
      handle_commit tx kv now =
        (⟨false, [], []⟩, replayOpsSpec tx.ops kv now, MSG_OK)) ∧
    (tx.in_tx = true → (commitLoop now tx.ops kv).2 = .error () →
      handle_commit tx kv now =
        (tx, (commitLoop now tx.ops kv).1, ERR_INTERNAL)) ∧
    (tx.in_tx = false → handle_commit tx kv now = (tx, kv, ERR_NO_TX)) := by
  refine ⟨?_, ?_, ?_⟩
  · intro h hok
    have heq := commitLoop_ok_eq now tx.ops kv hok
    unfold handle_commit
    rw [h]
    cases hc : commitLoop now tx.ops kv with
    | mk kv' r =>
      rw [hc] at hok heq
      simp at hok
      subst hok
      simp at heq
      simp [heq]
  · intro h herr
    unfold handle_commit
    rw [h]
    cases hc : commitLoop now tx.ops kv with
    | mk kv' r =>
      rw [hc] at herr
      simp at herr
      subst herr
      simp
  · intro h
    unfold handle_commit
    rw [h]
    rfl

/-- C4 witness: a clean one-op commit, a commit aborted by an invalid
buffered key, and a commit while Idle. -/
theorem claim_C4_commit_witness :
    handle_commit ⟨true, [("a", some "1")], [TxOp.set "a" "1"]⟩ emptyEngine 0 =
      (⟨false, [], []⟩,
        replayOpsSpec [TxOp.set "a" "1"] emptyEngine 0, MSG_OK) ∧
    handle_commit ⟨true, [("a b", some "1")], [TxOp.set "a b" "1"]⟩
        emptyEngine 0 =
      (⟨true, [("a b", some "1")], [TxOp.set "a b" "1"]⟩,
        (commitLoop 0 [TxOp.set "a b" "1"] emptyEngine).1, ERR_INTERNAL) ∧
    handle_commit ⟨false, [], []⟩ emptyEngine 0 =
      (⟨false, [], []⟩, emptyEngine, ERR_NO_TX) :=
  ⟨(claim_C4_commit ⟨true, [("a", some "1")], [TxOp.set "a" "1"]⟩
      emptyEngine 0).1 rfl (by decide),
   (claim_C4_commit ⟨true, [("a b", some "1")], [TxOp.set "a b" "1"]⟩
      emptyEngine 0).2.1 rfl (by decide),
   (claim_C4_commit ⟨false, [], []⟩ emptyEngine 0).2.2 rfl⟩

/-- C5: `begin; set k v; abort` never touches the engine (state or log),
and `abort` while Idle reports "no transaction". -/
theorem claim_C5_abort_frame (tx : TxState) (kv : EngineState) (k v : String)
    (h : tx.in_tx = false) :
    (handle_set (handle_begin tx).1 kv k v).2.1 = kv ∧
    handle_abort (handle_set (handle_begin tx).1 kv k v).1
        (handle_set (handle_begin tx).1 kv k v).2.1
      = (⟨false, [], []⟩, kv, MSG_OK) ∧
    handle_abort tx kv = (tx, kv, ERR_NO_TX) := by
  have hb : (handle_begin tx).1 = ⟨true, [], []⟩ := by
    unfold handle_begin
    rw [h]
    rfl
  have hset : (handle_set (handle_begin tx).1 kv k v).2.1 = kv ∧
      (handle_set (handle_begin tx).1 kv k v).1.in_tx = true := by
    rw [hb]
    unfold handle_set
    by_cases hval : (hasChar v.toList '\n' || hasChar v.toList '\r') = true
    · rw [if_pos hval]
      exact ⟨rfl, rfl⟩
    · rw [if_neg hval]
      exact ⟨rfl, rfl⟩
  refine ⟨hset.1, ?_, ?_⟩
  · rw [hset.1]
    unfold handle_abort
    rw [hset.2]
    rfl
  · unfold handle_abort
    rw [h]
    rfl

/-- C5 witness: the scenario on the empty store from the Idle state. -/
theorem claim_C5_abort_frame_witness :
    (handle_set (handle_begin ⟨false, [], []⟩).1 emptyEngine "a" "1").2.1
      = emptyEngine ∧
    handle_abort (handle_set (handle_begin ⟨false, [], []⟩).1 emptyEngine "a" "1").1
        (handle_set (handle_begin ⟨false, [], []⟩).1 emptyEngine "a" "1").2.1
      = (⟨false, [], []⟩, emptyEngine, MSG_OK) ∧
    handle_abort ⟨false, [], []⟩ emptyEngine
      = (⟨false, [], []⟩, emptyEngine, ERR_NO_TX) :=
  claim_C5_abort_frame ⟨false, [], []⟩ emptyEngine "a" "1" rfl

/-! ### Replay of an unterminated final line -/

/-- C3 evaluation: `replay` yields the record encoded on the unterminated
final line (the source's last-character peek only logs a warning; the line
iteration that follows re-reads and parses that line like any other),
contradicting the claim — and the code's own docstring — that the trailing
partial line is discarded. -/
theorem claim_C3_trailing_line :
    replay "SET a 1\nSET b 2" = [("SET", "a", "1"), ("SET", "b", "2")] ∧
    replay "SET a 1\nSET b 2\n" = [("SET", "a", "1"), ("SET", "b", "2")] := by
  constructor
  · decide
  · decide

/-! ### Preservation of the tombstone/TTL/index invariant -/

/-- The reachable-state properties: the tombstone/TTL/index coupling plus
validity of every indexed key. -/
def StateOk (s : EngineState) : Prop := EngineInv s ∧ IdxKeysValid s

theorem alivePure_parts (s : EngineState) (k : String) (now : Int)
    (h : alivePure s k now = true) :
    tombMem s.tombstones k = false ∧ (idxGet s.index k).isSome = true := by
  unfold alivePure at h
  cases htm : tombMem s.tombstones k <;> rw [htm] at h
  · simp at h
    exact ⟨rfl, h.1⟩
  · simp at h

/-- Tombstoning a key while dropping its TTL preserves the invariant,
whatever happens to the log. -/
theorem stateOk_mk_del (s1 : EngineState) (k : String) (L : List String)
    (h1 : StateOk s1) :
    StateOk ⟨s1.index, tombAdd s1.tombstones k, ttlPop s1.ttl k, L⟩ := by
  refine ⟨⟨?_, ?_⟩, h1.2⟩
  · intro k' hk'
    by_cases hkk : k' = k
    · subst hkk
      exact ttlGet_ttlPop_self s1.ttl k'
    · rw [ttlGet_ttlPop_ne _ _ _ hkk]
      rw [tombMem_tombAdd_ne _ _ _ hkk] at hk'
      exact h1.1.1 k' hk'
  · intro k' e hk'e
    by_cases hkk : k' = k
    · subst hkk
      rw [ttlGet_ttlPop_self] at hk'e
      cases hk'e
    · rw [ttlGet_ttlPop_ne _ _ _ hkk] at hk'e
      exact h1.1.2 k' e hk'e

theorem stateOk_is_alive (s : EngineState) (k : String) (now : Int)
    (h : StateOk s) : StateOk (KVEngine.is_alive s k now).2 := by
  rw [is_alive_snd]
  split
  · constructor
    · constructor
      · intro k' hk'
        by_cases hkk : k' = k
        · subst hkk
          exact ttlGet_ttlPop_self s.ttl k'
        · rw [ttlGet_ttlPop_ne _ _ _ hkk]
          rw [tombMem_tombAdd_ne _ _ _ hkk] at hk'
          exact h.1.1 k' hk'
      · intro k' e hk'e
        by_cases hkk : k' = k
        · subst hkk
          rw [ttlGet_ttlPop_self] at hk'e
          cases hk'e
        · rw [ttlGet_ttlPop_ne _ _ _ hkk] at hk'e
          exact h.1.2 k' e hk'e
    · exact h.2
  · exact h

/-- `set` with an invalid key or value raises before mutating anything. -/
theorem set_eq_err (s : EngineState) (k v : String)
    (h : pyMatchKey k = false ∨ hasChar v.toList '\n' = true) :
    KVEngine.set s k v = (s, .error ()) := by
  unfold KVEngine.set append_set
  rcases h with h | h
  · rw [h]
    rfl
  · rw [h]
    cases pyMatchKey k <;> rfl

/-- `set` with a valid key and value: the appended line, the index update
and the tombstone removal. -/
theorem set_eq_ok (s : EngineState) (k v : String) (hk : pyMatchKey k = true)
    (hv : hasChar v.toList '\n' = false) :
    KVEngine.set s k v =
      (⟨idxSet s.index k v, tombRemove s.tombstones k, s.ttl,
        s.log ++ ["SET " ++ k ++ " " ++ v ++ "\n"]⟩, .ok ()) := by
  unfold KVEngine.set append_set
  rw [hk, hv]
  rfl

theorem stateOk_set (s : EngineState) (k v : String) (h : StateOk s) :
    StateOk (KVEngine.set s k v).1 := by
  cases hk : pyMatchKey k with
  | false =>
    rw [set_eq_err s k v (Or.inl hk)]
    exact h
  | true =>
    cases hv : hasChar v.toList '\n' with
    | true =>
      rw [set_eq_err s k v (Or.inr hv)]
      exact h
    | false =>
      simp only [set_eq_ok s k v hk hv]
      refine ⟨⟨?_, ?_⟩, ?_⟩
      · intro k' hk'
        by_cases hkk : k' = k
        · subst hkk
          rw [tombMem_tombRemove_self] at hk'
          cases hk'
        · rw [tombMem_tombRemove_ne _ _ _ hkk] at hk'
          exact h.1.1 k' hk'
      · intro k' e hk'e
        by_cases hkk : k' = k
        · subst hkk
          rw [idxGet_idxSet_self]
          rfl
        · rw [idxGet_idxSet_ne _ _ _ _ hkk]
          exact h.1.2 k' e hk'e
      · intro k' hk'
        by_cases hkk : k' = k
        · subst hkk
          exact hk
        · rw [idxGet_idxSet_ne _ _ _ _ hkk] at hk'
          exact h.2 k' hk'

theorem stateOk_get (s : EngineState) (k : String) (now : Int) (h : StateOk s) :
    StateOk (KVEngine.get s k now).1 := by
  unfold KVEngine.get
  cases hp : KVEngine.is_alive s k now with
  | mk a s1 =>
    have h1 : StateOk s1 := by
      have := stateOk_is_alive s k now h
      rw [hp] at this
      exact this
    cases a <;> simp <;> exact h1

theorem stateOk_existsKey (s : EngineState) (k : String) (now : Int)
    (h : StateOk s) : StateOk (KVEngine.existsKey s k now).1 := by
  unfold KVEngine.existsKey
  cases hp : KVEngine.is_alive s k now with
  | mk a s1 =>
    have h1 : StateOk s1 := by
      have := stateOk_is_alive s k now h
      rw [hp] at this
      exact this
    exact h1

theorem stateOk_delete (s : EngineState) (k : String) (now : Int)
    (h : StateOk s) : StateOk (KVEngine.delete s k now).1 := by
  unfold KVEngine.delete
  cases hp : KVEngine.is_alive s k now with
  | mk a s1 =>
    have h1 : StateOk s1 := by
      have := stateOk_is_alive s k now h
      rw [hp] at this
      exact this
    cases a
    · simp only [Bool.not_false, if_true]
      refine ⟨⟨?_, ?_⟩, h1.2⟩
      · intro k' hk'
        by_cases hkk : k' = k
        · subst hkk
          exact ttlGet_ttlPop_self s1.ttl k'
        · rw [ttlGet_ttlPop_ne _ _ _ hkk]
          exact h1.1.1 k' hk'
      · intro k' e hk'e
        by_cases hkk : k' = k
        · subst hkk
          rw [ttlGet_ttlPop_self] at hk'e
          cases hk'e
        · rw [ttlGet_ttlPop_ne _ _ _ hkk] at hk'e
          exact h1.1.2 k' e hk'e
    · cases hd : append_del s1.log k with
      | error e0 =>
        simp [hd]
        exact stateOk_mk_del s1 k s1.log h1
      | ok log' =>
        simp [hd]
        exact stateOk_mk_del s1 k log' h1

theorem stateOk_expire (s : EngineState) (k : String) (ms now : Int)
    (h : StateOk s) : StateOk (KVEngine.expire s k ms now).1 := by
  unfold KVEngine.expire
  cases hp : KVEngine.is_alive s k now with
  | mk a s1 =>
    have h1 : StateOk s1 := by
      have := stateOk_is_alive s k now h
      rw [hp] at this
      exact this
    cases a
    · simp only [Bool.not_false, if_true]
      exact h1
    · simp only [Bool.not_true, if_false]
      have halive : (KVEngine.is_alive s k now).1 = true := by rw [hp]
      have hs1 : s1 = s := by
        have := is_alive_snd_of_true s k now halive
        rw [hp] at this
        exact this
      have hap : alivePure s k now = true := by
        rw [is_alive_fst] at halive
        exact halive
      obtain ⟨htm, hidx⟩ := alivePure_parts s k now hap
      have h2 : StateOk { s1 with ttl := ttlSet s1.ttl k (now + ms) } := by
        refine ⟨⟨?_, ?_⟩, h1.2⟩
        · intro k' hk'
          by_cases hkk : k' = k
          · subst hkk
            rw [hs1] at hk'
            rw [hk'] at htm
            cases htm
          · rw [ttlGet_ttlSet_ne _ _ _ _ hkk]
            exact h1.1.1 k' hk'
        · intro k' e hk'e
          by_cases hkk : k' = k
          · subst hkk
            rw [hs1]
            exact hidx
          · rw [ttlGet_ttlSet_ne _ _ _ _ hkk] at hk'e
            exact h1.1.2 k' e hk'e
      unfold append_expireat
      by_cases hkv : pyMatchKey k
      · simp only [hkv, Bool.not_true, if_false]
        exact h2
      · simp only [hkv, Bool.not_false, if_true]
        exact h2

theorem stateOk_ttl (s : EngineState) (k : String) (now : Int) (h : StateOk s) :
    StateOk (KVEngine.ttl s k now).1 := by
  unfold KVEngine.ttl
  cases hp : KVEngine.is_alive s k now with
  | mk a s1 =>
    have h1 : StateOk s1 := by
      have := stateOk_is_alive s k now h
      rw [hp] at this
      exact this
    cases a
    · simp only [Bool.not_false, if_true]
      exact h1
    · simp only [Bool.not_true, if_false]
      cases httl : ttlGet s1.ttl k
      · exact h1
      · rename_i e
        by_cases he : e ≤ now
        · simp [he]
          exact stateOk_mk_del s1 k s1.log h1
        · simp [he]
          exact h1

theorem stateOk_persist (s : EngineState) (k : String) (now : Int)
    (h : StateOk s) : StateOk (KVEngine.persist s k now).1 := by
  unfold KVEngine.persist
  cases hp : KVEngine.is_alive s k now with
  | mk a s1 =>
    have h1 : StateOk s1 := by
      have := stateOk_is_alive s k now h
      rw [hp] at this
      exact this
    cases a
    · simp only [Bool.not_false, if_true]
      exact h1
    · simp only [Bool.not_true, if_false]
      cases httl : ttlGet s1.ttl k
      · exact h1
      · have h2 : StateOk { s1 with ttl := ttlPop s1.ttl k } := by
          refine ⟨⟨?_, ?_⟩, h1.2⟩
          · intro k' hk'
            by_cases hkk : k' = k
            · subst hkk
              exact ttlGet_ttlPop_self s1.ttl k'
            · rw [ttlGet_ttlPop_ne _ _ _ hkk]
              exact h1.1.1 k' hk'
          · intro k' e' hk'e
            by_cases hkk : k' = k
            · subst hkk
              rw [ttlGet_ttlPop_self] at hk'e
              cases hk'e
            · rw [ttlGet_ttlPop_ne _ _ _ hkk] at hk'e
              exact h1.1.2 k' e' hk'e
        unfold append_persist
        by_cases hkv : pyMatchKey k
        · simp only [hkv, Bool.not_true, if_false]
          exact h2
        · simp only [hkv, Bool.not_false, if_true]
          exact h2

theorem stateOk_rangeLoop (start stop : String) (now : Int) :
    ∀ (l : List (String × String)) (s : EngineState), StateOk s →
      StateOk (rangeLoop start stop now s l).1 := by
  intro l
  induction l with
  | nil => intro s h; exact h
  | cons p rest ih =>
    intro s h
    obtain ⟨k, v⟩ := p
    simp only [rangeLoop]
    by_cases c1 : (hasChar k.toList '-' && decide (k.length > 16)) = true
    · rw [if_pos c1]
      exact ih s h
    · rw [if_neg c1]
      by_cases c2 : (decide (start ≠ "") && pyStrLt k start) = true
      · rw [if_pos c2]
        exact ih s h
      · rw [if_neg c2]
        by_cases c3 : (decide (stop ≠ "") && pyStrLt stop k) = true
        · rw [if_pos c3]
          exact ih s h
        · rw [if_neg c3]
          cases hp : KVEngine.is_alive s k now with
          | mk a s1 =>
            have h1 : StateOk s1 := by
              have := stateOk_is_alive s k now h
              rw [hp] at this
              exact this
            cases a
            · simp only [Bool.false_eq_true, if_false]
              exact ih s1 h1
            · simp only [if_true]
              cases hr : rangeLoop start stop now s1 rest with
              | mk s2 ks =>
                have := ih s1 h1
                rw [hr] at this
                exact this

theorem stateOk_range (s : EngineState) (start stop : String) (now : Int)
    (h : StateOk s) : StateOk (KVEngine.range_keys s start stop now).1 :=
  stateOk_rangeLoop start stop now s.index s h

/-- Every reachable engine state satisfies the invariant and holds only
validated keys in its index. -/
theorem reachable_ok {s : EngineState} (h : Reachable s) : StateOk s := by
  induction h with
  | init =>
    refine ⟨⟨?_, ?_⟩, ?_⟩
    · intro k hk
      cases hk
    · intro k e hke
      cases hke
    · intro k hk
      cases hk
  | set key value _ ih => exact stateOk_set _ key value ih
  | get key now _ ih => exact stateOk_get _ key now ih
  | delete key now _ ih => exact stateOk_delete _ key now ih
  | existsKey key now _ ih => exact stateOk_existsKey _ key now ih
  | expire key ms now _ ih => exact stateOk_expire _ key ms now ih
  | ttl key now _ ih => exact stateOk_ttl _ key now ih
  | persist key now _ ih => exact stateOk_persist _ key now ih
  | range start stop now _ ih => exact stateOk_range _ start stop now ih

/-- C10: in every state reachable from the empty initial state by the
public operations, no key is both tombstoned and in the TTL table, and
every TTL-table key has an index entry. -/
theorem claim_C10_invariant (s : EngineState) (h : Reachable s) :
    (∀ k, tombMem s.tombstones k = true → ttlGet s.ttl k = none) ∧
    (∀ k e, ttlGet s.ttl k = some e → (idxGet s.index k).isSome = true) :=
  (reachable_ok h).1

/-- C10 witness: the invariant at a concrete reachable state. -/
theorem claim_C10_invariant_witness :
    (∀ k, tombMem (KVEngine.expire (KVEngine.set emptyEngine "a" "1").1
        "a" 7 0).1.tombstones k = true →
      ttlGet (KVEngine.expire (KVEngine.set emptyEngine "a" "1").1
        "a" 7 0).1.ttl k = none) ∧
    (∀ k e, ttlGet (KVEngine.expire (KVEngine.set emptyEngine "a" "1").1
        "a" 7 0).1.ttl k = some e →
      (idxGet (KVEngine.expire (KVEngine.set emptyEngine "a" "1").1
        "a" 7 0).1.index k).isSome = true) :=
  claim_C10_invariant _
    (Reachable.expire "a" 7 0 (Reachable.set "a" "1" Reachable.init))

/-- After a failed liveness check on an invariant-satisfying state, the
checked key has no TTL entry left. -/
theorem dead_ttl_none (s : EngineState) (k : String) (now : Int)
    (hOk : StateOk s) (hdead : (KVEngine.is_alive s k now).1 = false) :
    ttlGet (KVEngine.is_alive s k now).2.ttl k = none := by
  rw [is_alive_snd]
  by_cases hc : (!tombMem s.tombstones k && (idxGet s.index k).isSome &&
      expiredNow s k now) = true
  · rw [if_pos hc]
    exact ttlGet_ttlPop_self s.ttl k
  · rw [if_neg hc]
    rw [is_alive_fst] at hdead
    unfold alivePure at hdead
    cases htm : tombMem s.tombstones k
    · rw [htm] at hdead
      cases hidx : idxGet s.index k
      · cases httl : ttlGet s.ttl k
        · rfl
        · rename_i e
          have h2 := hOk.1.2 k e httl
          rw [hidx] at h2
          simp at h2
      · rw [hidx] at hdead
        cases httl : ttlGet s.ttl k
        · simp [httl] at hdead
        · rename_i e
          rw [httl] at hdead
          simp at hdead
          exfalso
          apply hc
          rw [htm, hidx]
          unfold expiredNow
          rw [httl]
          have hle : e ≤ now := by omega
          simp [hle]
    · exact hOk.1.1 k htm

/-- C9: on a reachable state, deleting a dead key reports `false`, appends
nothing, and leaves the state exactly as the liveness check itself left it;
deleting a live key tombstones it, clears its TTL and appends a DEL
record. -/
theorem claim_C9_delete_dead_noop (s : EngineState) (k : String) (now : Int)
    (h : Reachable s) :
    ((KVEngine.is_alive s k now).1 = false →
      KVEngine.delete s k now = ((KVEngine.is_alive s k now).2, .ok false) ∧
      (KVEngine.is_alive s k now).2.log = s.log ∧
      (KVEngine.is_alive s k now).2.index = s.index) ∧
    ((KVEngine.is_alive s k now).1 = true →
      KVEngine.delete s k now =
        (⟨s.index, tombAdd s.tombstones k, ttlPop s.ttl k,
          s.log ++ ["DEL " ++ k ++ "\n"]⟩, .ok true)) := by
  have hOk := reachable_ok h
  constructor
  · intro hdead
    have hnone := dead_ttl_none s k now hOk hdead
    have hil := is_alive_snd_index_log s k now
    cases hp : KVEngine.is_alive s k now with
    | mk a s1 =>
      rw [hp] at hdead hnone hil
      simp at hdead
      subst hdead
      refine ⟨?_, hil.2, hil.1⟩
      unfold KVEngine.delete
      rw [hp]
      have hpop : ttlPop s1.ttl k = s1.ttl := ttlPop_of_get_none _ _ hnone
      simp [hpop]
  · intro halive
    have hp := is_alive_eq_of_true s k now halive
    have hap : alivePure s k now = true := by
      rw [is_alive_fst] at halive
      exact halive
    have hidx := (alivePure_parts s k now hap).2
    have hkv : pyMatchKey k = true := hOk.2 k hidx
    have hd : append_del s.log k = .ok (s.log ++ ["DEL " ++ k ++ "\n"]) := by
      unfold append_del
      rw [hkv]
      rfl
    unfold KVEngine.delete
    rw [hp]
    simp [hd]

/-- C9 witness: delete a missing key and a live key on a reachable state. -/
theorem claim_C9_delete_dead_noop_witness :
    KVEngine.delete (KVEngine.set emptyEngine "a" "1").1 "b" 5 =
      ((KVEngine.is_alive (KVEngine.set emptyEngine "a" "1").1 "b" 5).2,
        .ok false) ∧
    KVEngine.delete (KVEngine.set emptyEngine "a" "1").1 "a" 5 =
      (⟨(KVEngine.set emptyEngine "a" "1").1.index,
        tombAdd (KVEngine.set emptyEngine "a" "1").1.tombstones "a",
        ttlPop (KVEngine.set emptyEngine "a" "1").1.ttl "a",
        (KVEngine.set emptyEngine "a" "1").1.log ++ ["DEL " ++ "a" ++ "\n"]⟩,
        .ok true) :=
  ⟨((claim_C9_delete_dead_noop _ "b" 5
      (Reachable.set "a" "1" Reachable.init)).1 (by decide)).1,
   (claim_C9_delete_dead_noop _ "a" 5
      (Reachable.set "a" "1" Reachable.init)).2 (by decide)⟩

/-! ### RANGE: filter shape and ordering -/

theorem bool_eq_false {b : Bool} (h : ¬ b = true) : b = false := by
  cases b
  · rfl
  · exact absurd rfl h

/-- The pure pass condition of one `range_keys` iteration, evaluated
against the pre-call state: not dash-long, within bounds, alive. -/
def rangePass (s₀ : EngineState) (start stop : String) (now : Int) (k : String) :
    Bool :=
  !(hasChar k.toList '-' && decide (k.length > 16)) &&
  !(decide (start ≠ "") && pyStrLt k start) &&
  !(decide (stop ≠ "") && pyStrLt stop k) &&
  alivePure s₀ k now

theorem rangePass_true_iff (s₀ : EngineState) (start stop : String) (now : Int)
    (k : String) :
    rangePass s₀ start stop now k = true ↔
      (alivePure s₀ k now = true ∧
       ¬(hasChar k.toList '-' = true ∧ 16 < k.length) ∧
       (start = "" ∨ pyStrLt k start = false) ∧
       (stop = "" ∨ pyStrLt stop k = false)) := by
  unfold rangePass
  constructor
  · intro h
    simp only [Bool.and_eq_true, Bool.not_eq_true'] at h
    rcases h with ⟨⟨⟨hA, hB⟩, hC⟩, hD⟩
    refine ⟨hD, ?_, ?_, ?_⟩
    · rintro ⟨hd, hl⟩
      rw [hd] at hA
      simp at hA
      omega
    · by_cases hs0 : start = ""
      · exact Or.inl hs0
      · right
        rw [decide_eq_true hs0] at hB
        simpa using hB
    · by_cases hs0 : stop = ""
      · exact Or.inl hs0
      · right
        rw [decide_eq_true hs0] at hC
        simpa using hC
  · rintro ⟨hD, hsh, hst, hsp⟩
    have hA : (hasChar k.toList '-' && decide (k.length > 16)) = false := by
      cases hd : hasChar k.toList '-'
      · rfl
      · have hl : ¬ 16 < k.length := fun hl => hsh ⟨hd, hl⟩
        simp [hl]
    have hB : (decide (start ≠ "") && pyStrLt k start) = false := by
      rcases hst with h | h
      · simp [h]
      · simp [h]
    have hC : (decide (stop ≠ "") && pyStrLt stop k) = false := by
      rcases hsp with h | h
      · simp [h]
      · simp [h]
    rw [hA, hB, hC, hD]
    rfl

theorem mem_of_idxGet (l : List (String × String)) (k v : String)
    (h : idxGet l k = some v) : (k, v) ∈ l := by
  induction l with
  | nil => cases h
  | cons p rest ih =>
    cases p with
    | mk pk pv =>
      by_cases hp : pk = k
      · subst hp
        simp [idxGet] at h
        rw [h]
        exact List.mem_cons_self _ _
      · simp [idxGet, hp] at h
        exact List.mem_cons_of_mem _ (ih h)

/-- The loop of `range_keys`, run over a strictly sorted snapshot whose
keys' views agree with a reference state `s₀`, yields exactly the snapshot
keys passing the pure pass condition, in snapshot order. -/
theorem rangeLoop_eq (start stop : String) (now : Int) :
    ∀ (l : List (String × String)) (s s₀ : EngineState),
      (∀ p, p ∈ l → viewAt p.1 s = viewAt p.1 s₀) →
      List.Pairwise (fun a b => pyStrLt a.1 b.1 = true) l →
      (rangeLoop start stop now s l).2 =
        (l.filter (fun p => rangePass s₀ start stop now p.1)).map Prod.fst := by
  intro l
  induction l with
  | nil =>
    intro s s₀ hv hs
    rfl
  | cons p rest ih =>
    intro s s₀ hv hs
    obtain ⟨k, v⟩ := p
    simp only [rangeLoop]
    by_cases c1 : (hasChar k.toList '-' && decide (k.length > 16)) = true
    · rw [if_pos c1]
      have hpass : rangePass s₀ start stop now k = false := by
        unfold rangePass
        rw [c1]
        rfl
      rw [List.filter_cons_of_neg (by simp [hpass])]
      exact ih s s₀ (fun q hq => hv q (List.mem_cons_of_mem _ hq)) hs.of_cons
    · rw [if_neg c1]
      have c1' := bool_eq_false c1
      by_cases c2 : (decide (start ≠ "") && pyStrLt k start) = true
      · rw [if_pos c2]
        have hpass : rangePass s₀ start stop now k = false := by
          unfold rangePass
          rw [c1', c2]
          rfl
        rw [List.filter_cons_of_neg (by simp [hpass])]
        exact ih s s₀ (fun q hq => hv q (List.mem_cons_of_mem _ hq)) hs.of_cons
      · rw [if_neg c2]
        have c2' := bool_eq_false c2
        by_cases c3 : (decide (stop ≠ "") && pyStrLt stop k) = true
        · rw [if_pos c3]
          have hpass : rangePass s₀ start stop now k = false := by
            unfold rangePass
            rw [c1', c2', c3]
            rfl
          rw [List.filter_cons_of_neg (by simp [hpass])]
          exact ih s s₀ (fun q hq => hv q (List.mem_cons_of_mem _ hq)) hs.of_cons
        · rw [if_neg c3]
          have c3' := bool_eq_false c3
          have hview : viewAt k s = viewAt k s₀ := hv (k, v) (List.mem_cons_self _ _)
          cases hp : KVEngine.is_alive s k now with
          | mk a s1 =>
            have ha : a = alivePure s₀ k now := by
              have h1 := is_alive_fst s k now
              rw [hp] at h1
              simp at h1
              rw [h1]
              exact alivePure_of_viewAt s s₀ k now hview
            have hframe : ∀ q, q ∈ rest → viewAt q.1 s1 = viewAt q.1 s₀ := by
              intro q hq
              have hlt := (List.pairwise_cons.mp hs).1 q hq
              have hne : q.1 ≠ k := by
                intro heq
                rw [heq] at hlt
                rw [pyStrLt_irrefl k] at hlt
                cases hlt
              have hfr := is_alive_snd_frame s k q.1 now hne
              rw [hp] at hfr
              rw [hfr]
              exact hv q (List.mem_cons_of_mem _ hq)
            cases hap : alivePure s₀ k now
            · rw [hap] at ha
              subst ha
              have hpass : rangePass s₀ start stop now k = false := by
                unfold rangePass
                rw [c1', c2', c3', hap]
                rfl
              rw [if_neg (by simp)]
              rw [List.filter_cons_of_neg (by simp [hpass])]
              exact ih s1 s₀ hframe hs.of_cons
            · rw [hap] at ha
              subst ha
              rw [if_pos rfl]
              have hpass : rangePass s₀ start stop now k = true := by
                unfold rangePass
                rw [c1', c2', c3', hap]
                rfl
              rw [List.filter_cons_of_pos (by simp [hpass]), List.map_cons]
              have hks := ih s1 s₀ hframe hs.of_cons
              cases hr : rangeLoop start stop now s1 rest with
              | mk s2 ks =>
                rw [hr] at hks
                simp
                exact hks

/-- C6 counterexample: the key `a-aaaaaaaaaaaaaaaa` is live, falls inside
the unbounded range, and does not match the 8-4-4-4-12 hex pattern of
`_UUID_RE`, yet `range_keys` omits it (the code filters on "contains a
dash and longer than 16 characters", not on the regex). -/
theorem claim_C6_range_counterexample :
    matchesUUIDRe "a-aaaaaaaaaaaaaaaa" = false ∧
    (KVEngine.is_alive ⟨[("a-aaaaaaaaaaaaaaaa", "v")], [], [], []⟩
      "a-aaaaaaaaaaaaaaaa" 0).1 = true ∧
    (KVEngine.range_keys ⟨[("a-aaaaaaaaaaaaaaaa", "v")], [], [], []⟩
      "" "" 0).2 = [] := by
  refine ⟨by decide, by decide, by decide⟩

/-- C6 amended: over a key-sorted index, `range_keys` yields in ascending
lexicographic order exactly the live keys within the inclusive bounds
(empty bound = unbounded), except those that contain a dash and are longer
than 16 characters. -/
theorem claim_C6_range_amended (s : EngineState) (start stop : String)
    (now : Int)
    (hs : List.Pairwise (fun a b => pyStrLt a.1 b.1 = true) s.index) :
    List.Pairwise (fun a b => pyStrLt a b = true)
      (KVEngine.range_keys s start stop now).2 ∧
    (∀ k, k ∈ (KVEngine.range_keys s start stop now).2 ↔
      (alivePure s k now = true ∧
       ¬(hasChar k.toList '-' = true ∧ 16 < k.length) ∧
       (start = "" ∨ pyStrLt k start = false) ∧
       (stop = "" ∨ pyStrLt stop k = false))) := by
  have heq := rangeLoop_eq start stop now s.index s s (fun p _ => rfl) hs
  unfold KVEngine.range_keys
  rw [heq]
  constructor
  · exact List.pairwise_map.mpr (hs.filter _)
  · intro k
    constructor
    · intro hk
      rcases List.mem_map.mp hk with ⟨p, hpf, hpk⟩
      rcases List.mem_filter.mp hpf with ⟨hpl, hpass⟩
      rw [← hpk]
      exact (rangePass_true_iff s start stop now p.1).mp (by simpa using hpass)
    · intro hcond
      have hidx := (alivePure_parts s k now hcond.1).2
      rcases Option.isSome_iff_exists.mp hidx with ⟨v, hv⟩
      refine List.mem_map.mpr ⟨(k, v), List.mem_filter.mpr ⟨mem_of_idxGet _ _ _ hv, ?_⟩, rfl⟩
      simpa using (rangePass_true_iff s start stop now k).mpr hcond

/-- C6 witness: a sorted two-key store where only the short key is
yielded. -/
theorem claim_C6_range_amended_witness :
    List.Pairwise (fun a b => pyStrLt a b = true)
      (KVEngine.range_keys
        ⟨[("a", "1"), ("b-bbbbbbbbbbbbbbbb", "2")], [], [], []⟩ "" "" 0).2 ∧
    (∀ k, k ∈ (KVEngine.range_keys
        ⟨[("a", "1"), ("b-bbbbbbbbbbbbbbbb", "2")], [], [], []⟩ "" "" 0).2 ↔
      (alivePure ⟨[("a", "1"), ("b-bbbbbbbbbbbbbbbb", "2")], [], [], []⟩ k 0
          = true ∧
       ¬(hasChar k.toList '-' = true ∧ 16 < k.length) ∧
       (("" : String) = "" ∨ pyStrLt k "" = false) ∧
       (("" : String) = "" ∨ pyStrLt "" k = false))) :=
  claim_C6_range_amended
    ⟨[("a", "1"), ("b-bbbbbbbbbbbbbbbb", "2")], [], [], []⟩ "" "" 0 (by decide)

end KVStore
